import Mathlib

/-!
Verification development for `brownie/network/event.py`.

The Python module is shallowly embedded: dictionaries become association
lists (`alookup` / `aset` mirror `d[k]` lookup and `d[k] = v` assignment,
which updates a binding in place and appends new keys at the end, matching
insertion-ordered `dict` semantics), exceptions become `Except PyErr`,
and mutation becomes explicit state passing.
-/

namespace BrownieEvent

/-- Decoded argument values passing through the core (opaque transforms). -/
inductive Value where
  | str (s : String)
  | num (n : Int)
  | null
deriving DecidableEq, Repr

/-- Python exceptions that the embedded code can raise. -/
inductive PyErr where
  | indexError
  | valueError
  | keyError
  | runtimeError
  | lookupError (msg : String)
deriving DecidableEq, Repr

/-- Association-list lookup, mirroring Python `d.get(k)` / `k in d`. -/
def alookup {α β : Type} [DecidableEq α] : List (α × β) → α → Option β
  | [], _ => none
  | p :: rest, k => if p.1 = k then some p.2 else alookup rest k

/-- Association-list assignment `d[k] = v`: update in place, else append. -/
def aset {α β : Type} [DecidableEq α] : List (α × β) → α → β → List (α × β)
  | [], k, v => [(k, v)]
  | p :: rest, k, v => if p.1 = k then (k, v) :: rest else p :: aset rest k v

/-- One input of an event ABI: `{"name": ..., "type": ..., "indexed": ...}`. -/
structure AbiEventInput where
  name : String
  type : String
  indexed : Bool
deriving DecidableEq, Repr

/-- One topic-map entry: `{"name": ..., "inputs": [...]}`. -/
structure TopicEntry where
  name : String
  inputs : List AbiEventInput
deriving DecidableEq, Repr

/-- The global `_topics` dict: topic hash (hex string) to event ABI entry. -/
abbrev TopicMap := List (String × TopicEntry)

/-- Truthiness of `next((i for i in entry["inputs"] if i["indexed"]), False)`:
whether the entry has at least one indexed input. -/
def hasIndexedInput (e : TopicEntry) : Bool :=
  (e.inputs.find? (fun i => i.indexed)).isSome

/-- Body of the merge loop in `_get_topics` for one `(key, value)` item of
the incoming map: new keys are added; identical entries are left alone;
a differing entry overwrites only if the existing one has no indexed input. -/
def mergeStep (updated : TopicMap) (kv : String × TopicEntry) : TopicMap :=
  match alookup updated kv.1 with
  | none => aset updated kv.1 kv.2
  | some old =>
    if kv.2 = old then updated
    else if hasIndexedInput old = false then aset updated kv.1 kv.2
    else updated

/-- The merge in `_get_topics`: fold the incoming `topic_map.items()` over a
copy of the existing `_topics`. -/
def mergeTopics (existing incoming : TopicMap) : TopicMap :=
  incoming.foldl mergeStep existing

/-- The write gate in `_get_topics`: the cache file is rewritten exactly when
`updated_topics != _topics`. -/
def mergeWrites (existing incoming : TopicMap) : Bool :=
  decide (mergeTopics existing incoming ≠ existing)

/-! EventDict and _EventItem. The Python `_EventItem` is duck-typed: the
instances stored in `EventDict._ordered` hold a singleton list of field
maps, while the instances stored in `EventDict._dict` hold a list of those
single items. The embedding splits the two shapes into `SingleItem` and
`GroupItem`. Name and field-key types are parameters, since decoded events
can carry `None` names (undecoded placeholders). -/

/-- One decoded event as consumed by `EventDict.__init__`: only the
`"name"`, `"address"` and `"data"` (field name/value) slots are read. -/
structure FiredEvent (α β : Type) where
  name : α
  address : String
  data : List (β × Value)
deriving DecidableEq, Repr

/-- An `_EventItem` as stored in `EventDict._ordered`: `_ordered` holds one
`OrderedDict` of fields and `pos` one position. -/
structure SingleItem (α β : Type) where
  name : α
  address : Option String
  data : List (List (β × Value))
  pos : List Nat
deriving DecidableEq, Repr

/-- An `_EventItem` as stored in `EventDict._dict`: `_ordered` holds the
single items sharing this name, `address` is `None`. -/
structure GroupItem (α β : Type) where
  name : α
  address : Option String
  members : List (SingleItem α β)
  pos : List Nat
deriving DecidableEq, Repr

/-- The `EventDict` container: ordered sequence plus name-indexed dict. -/
structure EventDict (α β : Type) where
  ordered : List (SingleItem α β)
  dict : List (α × GroupItem α β)
deriving DecidableEq, Repr

/-- `OrderedDict((x["name"], x["value"]) for x in data)`: duplicate keys
overwrite in place, new keys append. -/
def mkOrderedDict {β : Type} [DecidableEq β] (l : List (β × Value)) : List (β × Value) :=
  l.foldl (fun acc p => aset acc p.1 p.2) []

/-- `EventDict.__init__`: build `_ordered` as singleton items (creation
order = log order) and `_dict` by grouping all same-named singles under the
first occurrence of each name. `pos[0]` of a constructed single always
exists; `headD 0` stands for the subscript. -/
def mkEventDict {α β : Type} [DecidableEq α] [DecidableEq β]
    (events : List (FiredEvent α β)) : EventDict α β :=
  let ordered : List (SingleItem α β) :=
    events.enum.map (fun pi =>
      SingleItem.mk pi.2.name (some pi.2.address) [mkOrderedDict pi.2.data] [pi.1])
  let dict : List (α × GroupItem α β) :=
    ordered.foldl (fun d event =>
      if event.name ∈ d.map Prod.fst then d
      else
        d ++ [(event.name,
          GroupItem.mk event.name none
            (ordered.filter (fun i => decide (i.name = event.name)))
            ((ordered.filter (fun i => decide (i.name = event.name))).map
              (fun i => i.pos.headD 0)))]) []
  EventDict.mk ordered dict

/-- `EventDict.count(name)`: number of ordered events with that name. -/
def EventDict.count {α β : Type} [DecidableEq α] (d : EventDict α β) (name : α) : Nat :=
  (d.ordered.filter (fun i => decide (i.name = name))).length

/-- `EventDict.keys()`: the keys of `_dict`, in insertion order. -/
def EventDict.keys {α β : Type} (d : EventDict α β) : List α :=
  d.dict.map Prod.fst

/-- `EventDict.__len__`: number of events that fired. -/
def EventDict.len {α β : Type} (d : EventDict α β) : Nat :=
  d.ordered.length

/-- First-seen distinct elements, the key-insertion discipline of `_dict`. -/
def firstKeys {α : Type} [DecidableEq α] (l : List α) : List α :=
  l.foldl (fun acc n => if n ∈ acc then acc else acc ++ [n]) []

/-- Removal of the indexed marker: `i.replace(" (indexed)", "")`. -/
def stripIndexed (s : String) : String :=
  s.replace " (indexed)" ""

/-- `_EventItem.__contains__` on a single item: `name in self._ordered[0]`,
membership in the one field map. Constructed singles always hold exactly
one map; an empty `data` answers `false` here. -/
def SingleItem.containsKey {α : Type} (s : SingleItem α String) (k : String) : Bool :=
  match s.data.head? with
  | some m => (alookup m k).isSome
  | none => false

/-- `_EventItem.__getitem__` with a string key on a single item: the field
value from the first map, retrying with the `" (indexed)"`-suffixed name,
else `EventLookupError` listing this event's keys. -/
def SingleItem.getStr (s : SingleItem String String) (k : String) : Except PyErr Value :=
  match s.data.head? with
  | none => Except.error PyErr.indexError
  | some m =>
    match alookup m k with
    | some v => Except.ok v
    | none =>
      match alookup m (k ++ " (indexed)") with
      | some v => Except.ok v
      | none => Except.error (PyErr.lookupError
          ("Unknown key '" ++ k ++ "' - the '" ++ s.name ++
            "' event includes these keys: " ++
            String.intercalate ", " ((m.map Prod.fst).map stripIndexed)))

/-- `_EventItem.keys()` on a single item: the first map's keys with the
indexed marker stripped. -/
def SingleItem.skeys {α : Type} (s : SingleItem α String) : List String :=
  match s.data.head? with
  | some m => (m.map Prod.fst).map stripIndexed
  | none => []

/-- `_EventItem.__getitem__` with a string key on a group: `self._ordered[0]`
is the first single item, so containment and lookup delegate to it; the
error message joins `self.keys()`, which strips the indexed marker from the
first member's (already stripped) keys. -/
def GroupItem.getStr (g : GroupItem String String) (k : String) : Except PyErr Value :=
  match g.members.head? with
  | none => Except.error PyErr.indexError
  | some first =>
    if first.containsKey k then first.getStr k
    else if first.containsKey (k ++ " (indexed)") then first.getStr (k ++ " (indexed)")
    else Except.error (PyErr.lookupError
        ("Unknown key '" ++ k ++ "' - the '" ++ g.name ++
          "' event includes these keys: " ++
          String.intercalate ", " (first.skeys.map stripIndexed)))

/-! EventWatcher. Wall-clock instants and delays are integer milliseconds,
so the source's 0.05 s registration floor becomes 50 and the 2.0 s poll
cap becomes 2000. A poll pass is evaluated at one instant `now`. -/

/-- One subscription (`EventWatchData`). `pending` stands for the entries
the subscription's log filter would hand back on the next
`get_new_entries` pull; `repeats` renders the source's `repeat` attribute
(a reserved word here). -/
structure EventWatchData where
  delay : Int
  repeats : Bool
  last_trigger_time : Int
  cooldown_flag : Bool
  pending : List Nat
deriving DecidableEq, Repr

/-- The `cooldown_time_over` property getter: sets the stored flag once the
elapsed time reaches the delay, then returns the stored flag. -/
def cooldown_time_over_get (e : EventWatchData) (now : Int) : Bool × EventWatchData :=
  if now - e.last_trigger_time ≥ e.delay then
    (true, { e with cooldown_flag := true })
  else (e.cooldown_flag, e)

/-- `check_timer`: flags cooldown over when elapsed, and returns the time
left on the watch. -/
def check_timer (e : EventWatchData) (now : Int) : Int × EventWatchData :=
  if now - e.last_trigger_time ≥ e.delay then
    (e.delay - (now - e.last_trigger_time), { e with cooldown_flag := true })
  else (e.delay - (now - e.last_trigger_time), e)

/-- `_trigger_callback`, run by the dispatch loop at instant `now`: clears
the cooldown flag, stamps the trigger time, then feeds each log entry of
the batch to the user callback in order (the fed batch is returned). -/
def trigger_callback (e : EventWatchData) (now : Int) (events_data : List Nat) :
    EventWatchData × List Nat :=
  ({ e with cooldown_flag := false, last_trigger_time := now }, events_data)

/-- The `_watch_loop` body for one subscription at instant `now`: when the
cooldown is not over, only track the remaining time; when it is over, pull
the new entries and produce a dispatch task if any were found. Returns the
subscription as left in the list, the optional task, and the sleep bound
contributed. -/
def watchStep (now : Int) (e : EventWatchData) :
    EventWatchData × Option (EventWatchData × List Nat) × Int :=
  match cooldown_time_over_get e now with
  | (false, e1) => ((check_timer e1 now).2, none, (check_timer e1 now).1)
  | (true, e1) =>
    let latest := e1.pending
    let e2 := { e1 with pending := [] }
    (e2, if latest.length ≠ 0 then some (e2, latest) else none, e2.delay)

/-- One full pass of `_watch_loop` over the subscription list: process every
subscription in order, collect the enqueued tasks, fold the sleep bound
from the 2000 ms cap, and prune non-repeating subscriptions in the
`finally` block. -/
def watchPass (now : Int) (subs : List EventWatchData) :
    List EventWatchData × List (EventWatchData × List Nat) × Int :=
  let processed := subs.map (watchStep now)
  ((processed.map (fun p => p.1)).filter (fun e => e.repeats),
   processed.filterMap (fun p => p.2.1),
   processed.foldl (fun s p => min s p.2.2) 2000)

/-- A Python `threading.Thread`: `join()` raises `RuntimeError` when the
thread was never started. -/
structure PyThread where
  started : Bool
deriving DecidableEq, Repr

def PyThread.join (t : PyThread) : Except PyErr Unit :=
  if t.started then Except.ok () else Except.error PyErr.runtimeError

/-- The `EventWatcher` state: subscription list, kill flag, start marker,
and the two worker threads created (but not started) at construction. -/
structure EventWatcher where
  target_events_watch_data : List EventWatchData
  kill : Bool
  has_started : Bool
  watcher_thread : PyThread
  callback_thread : PyThread
deriving DecidableEq, Repr

/-- `EventWatcher.__init__`: no subscriptions, threads created unstarted. -/
def EventWatcher.init : EventWatcher :=
  EventWatcher.mk [] false false (PyThread.mk false) (PyThread.mk false)

/-- `EventWatcher.stop(wait)`: set the kill flag; when waiting, join the
watcher thread then the callback thread, propagating a join failure. -/
def EventWatcher.stop (w : EventWatcher) (wait : Bool) :
    EventWatcher × Except PyErr Unit :=
  let w1 := { w with kill := true }
  if wait then
    match w1.watcher_thread.join with
    | Except.error err => (w1, Except.error err)
    | Except.ok _ =>
      match w1.callback_thread.join with
      | Except.error err => (w1, Except.error err)
      | Except.ok _ => (w1, Except.ok ())
  else (w1, Except.ok ())

/-- `EventWatcher.add_event_callback`: start the two loops on the first
registration, floor the delay at 50 ms, append the subscription. -/
def EventWatcher.add_event_callback (w : EventWatcher) (sub : EventWatchData) :
    EventWatcher :=
  let w1 := if w.has_started = false then
      { w with watcher_thread := PyThread.mk true,
               callback_thread := PyThread.mk true,
               has_started := true }
    else w
  { w1 with target_events_watch_data :=
      w1.target_events_watch_data ++ [{ sub with delay := max sub.delay 50 }] }

/-! The log-decoding pipeline of `_decode_logs` / `_decode_ds_note`. -/

/-- Byte strings as lists of byte values. -/
abbrev Bytes := List Nat

/-- The hex digit character for a value below 16. -/
def hexDigitChar (n : Nat) : Char :=
  if n < 10 then Char.ofNat (Char.toNat '0' + n)
  else Char.ofNat (Char.toNat 'a' + (n - 10))

def byteToHex (b : Nat) : String :=
  String.mk [hexDigitChar (b / 16 % 16), hexDigitChar (b % 16)]

/-- Hex rendering of a byte string, `0x`-prefixed, as used for topic-map
and selector keys. -/
def bytesToHex (bs : Bytes) : String :=
  "0x" ++ String.join (bs.map byteToHex)

def hexVal (c : Char) : Option Nat :=
  if '0' ≤ c ∧ c ≤ '9' then some (c.toNat - '0'.toNat)
  else if 'a' ≤ c ∧ c ≤ 'f' then some (c.toNat - 'a'.toNat + 10)
  else if 'A' ≤ c ∧ c ≤ 'F' then some (c.toNat - 'A'.toNat + 10)
  else none

def hexPairsToBytes : List Char → Option Bytes
  | [] => some []
  | [_] => none
  | c1 :: c2 :: rest =>
    match hexVal c1, hexVal c2, hexPairsToBytes rest with
    | some h, some l, some bs => some ((h * 16 + l) :: bs)
    | _, _, _ => none

/-- Python `bytes.fromhex`: `none` models the `ValueError` on odd length or
a non-hex character. -/
def hexToBytes (s : String) : Option Bytes :=
  hexPairsToBytes s.toList

/-- One raw log entry: emitting address, topic hashes as byte strings, and
the hex-encoded data payload. -/
structure Log where
  address : String
  topics : List Bytes
  data : String
deriving DecidableEq, Repr

/-- One slot of a decoded event's `"data"` list. -/
structure DataField where
  name : Option String
  type : String
  value : Value
  decoded : Bool
deriving DecidableEq, Repr

/-- One decoded event as produced by the decoding pipeline; undecoded
placeholders carry `none` names. -/
structure DecodedEvent where
  name : Option String
  address : String
  decoded : Bool
  data : List DataField
deriving DecidableEq, Repr

/-- Modelled from the spec: `eth_event.decode_logs([item], topic_map,
allow_undecoded=True)` for one entry (the external `eth_event` library).
Per the spec, unresolvable topics (and topicless logs) decode with
placeholder unnamed fields rather than failing, while a structural decode
error — malformed data for a known topic, modelled as the payload past the
`0x` prefix not being valid hex — raises an `EventError` message. -/
def ethDecodeLog (tmap : TopicMap) (l : Log) : Except String DecodedEvent :=
  match l.topics.head? with
  | none => Except.ok (DecodedEvent.mk none l.address false
      [DataField.mk none "raw" (Value.str l.data) false])
  | some t0 =>
    match alookup tmap (bytesToHex t0) with
    | none => Except.ok (DecodedEvent.mk none l.address false
        [DataField.mk none "raw" (Value.str l.data) false])
    | some entry =>
      match hexToBytes (String.drop l.data 2) with
      | none => Except.error "Unable to decode event data"
      | some _ => Except.ok (DecodedEvent.mk (some entry.name) l.address true
          (entry.inputs.map (fun inp =>
            DataField.mk (some inp.name) inp.type (Value.str l.data) true)))

/-- Modelled from the spec: `brownie.convert.normalize.format_event`, the
external per-event value-formatting step, "opaque to this core; treat as
identity". -/
def format_event (e : DecodedEvent) : DecodedEvent := e

/-- Modelled from the spec: the slice of a deployed `Contract` that the
ds-note decoder consults — the selector table, `decode_input`, and the
input ABI (name, type pairs) of `get_method_object(selector)`. -/
structure Contract where
  selectors : List (String × String)
  decode_input : Bytes → Option (String × List Value)
  method_abi_inputs : String → List (String × String)

/-- Python `bytes.index(sub)`: position of the first occurrence of `sub`
as a contiguous block, `none` modelling the `ValueError` when absent. -/
def bytesFind (sub : Bytes) : Bytes → Option Nat
  | [] => if sub = [] then some 0 else none
  | b :: rest =>
    if sub.isPrefixOf (b :: rest) then some 0
    else (bytesFind sub rest).map (fun i => i + 1)

/-- `_decode_ds_note`: ds-note encodes a function selector as the first
four bytes of the first topic. An unrecognized selector, nonzero padding,
a payload without the selector bytes, or an input-decode failure answer
`none` (standard decoding is attempted instead); `log.topics[0]` on a
topicless log raises `IndexError`, and `bytes.fromhex(log.data[2:])` —
evaluated before the guarded region — raises `ValueError` on malformed
hex. -/
def _decode_ds_note (log : Log) (contract : Contract) :
    Except PyErr (Option DecodedEvent) :=
  match log.topics.head? with
  | none => Except.error PyErr.indexError
  | some t0 =>
    match alookup contract.selectors (bytesToHex (t0.take 4)) with
    | none => Except.ok none
    | some name =>
      if (t0.drop 4).sum ≠ 0 then Except.ok none
      else
        match hexToBytes (String.drop log.data 2) with
        | none => Except.error PyErr.valueError
        | some data =>
          match bytesFind (t0.take 4) data with
          | none => Except.ok none
          | some i =>
            match contract.decode_input (data.drop i) with
            | none => Except.ok none
            | some fa =>
              Except.ok (some (DecodedEvent.mk (some name) log.address true
                ((fa.2.zip (contract.method_abi_inputs (bytesToHex (t0.take 4)))).map
                  (fun p => DataField.mk (some p.2.1) p.2.2 p.1 true))))

/-- The guard `contracts and contracts[item.address]` on the `contracts`
argument of `_decode_logs` (address → deployed contract or `None`): an
empty dict is falsy and short-circuits; on a non-empty dict the subscript
`contracts[item.address]` raises `KeyError` when the address is absent,
and a stored `None` is falsy. -/
def contractFor (contracts : List (String × Option Contract)) (addr : String) :
    Except PyErr (Option Contract) :=
  if contracts.isEmpty then Except.ok none
  else
    match alookup contracts addr with
    | none => Except.error PyErr.keyError
    | some (some c) => Except.ok (some c)
    | some none => Except.ok none

/-- The per-entry body of the decode loop: try ds-note when a contract is
known (a produced note skips standard decoding, a raised error escapes —
including the `KeyError` from the contracts subscript), otherwise standard
decoding, turning an `EventError` into the warning
`"<run address>: <message>"`. -/
def processItem (tmap : TopicMap) (contracts : List (String × Option Contract))
    (runAddr : String) (item : Log) :
    Except PyErr (Option DecodedEvent × List String) :=
  match contractFor contracts item.address with
  | Except.error e => Except.error e
  | Except.ok (some c) =>
    match _decode_ds_note item c with
    | Except.error e => Except.error e
    | Except.ok (some note) => Except.ok (some note, [])
    | Except.ok none =>
      match ethDecodeLog tmap item with
      | Except.ok ev => Except.ok (some ev, [])
      | Except.error msg => Except.ok (none, [runAddr ++ ": " ++ msg])
  | Except.ok none =>
    match ethDecodeLog tmap item with
    | Except.ok ev => Except.ok (some ev, [])
    | Except.error msg => Except.ok (none, [runAddr ++ ": " ++ msg])

/-- The `for item in log_slice` loop: accumulate events and warnings, a
raised error escaping (and discarding the batch). -/
def processSlice (tmap : TopicMap) (contracts : List (String × Option Contract))
    (runAddr : String) : List Log → Except PyErr (List DecodedEvent × List String)
  | [] => Except.ok ([], [])
  | item :: rest =>
    match processItem tmap contracts runAddr item with
    | Except.error e => Except.error e
    | Except.ok (oe, w) =>
      match processSlice tmap contracts runAddr rest with
      | Except.error e => Except.error e
      | Except.ok (es, ws) => Except.ok (oe.toList ++ es, w ++ ws)

/-- `_deployment_topics`: contract address → its own topic map. -/
abbrev DeploymentTopics := List (String × TopicMap)

/-- `_deployment_topics.get(address, _topics)`. -/
def topicsMapFor (dt : DeploymentTopics) (gt : TopicMap) (addr : String) : TopicMap :=
  (alookup dt addr).getD gt

/-- The `while True` scan of `_decode_logs`, with `idx` the running cursor.
Python list semantics are kept exactly: `logs.index(x)` finds the first
position of an equal element anywhere in the list, the slice
`logs[idx:new_idx]` is empty when `new_idx ≤ idx`, and `log_slice[-1]` on
an empty slice raises `IndexError`. Each surviving iteration advances
`idx` strictly, so `logs.length + 1` units of fuel always suffice; the
fuel-exhausted and never-terminating branches (unreachable from
`_decode_logs`) answer `IndexError`. -/
def decodeLoop (dt : DeploymentTopics) (gt : TopicMap)
    (contracts : List (String × Option Contract)) (logs : List Log) :
    Nat → Nat → List DecodedEvent → List String →
    Except PyErr (List DecodedEvent × List String)
  | 0, _, _, _ => Except.error PyErr.indexError
  | fuel + 1, idx, accE, accW =>
    match logs[idx]? with
    | none => Except.error PyErr.indexError
    | some cur =>
      match (logs.drop idx).find? (fun i => decide (i.address ≠ cur.address)) with
      | some diffLog =>
        let newIdx := logs.findIdx (fun i => decide (i = diffLog))
        let slice := (logs.drop idx).take (newIdx - idx)
        match processSlice (topicsMapFor dt gt cur.address) contracts cur.address slice with
        | Except.error e => Except.error e
        | Except.ok (es, ws) =>
          match slice.getLast? with
          | none => Except.error PyErr.indexError
          | some sliceLast =>
            if logs.getLast? = some sliceLast then Except.ok (accE ++ es, accW ++ ws)
            else decodeLoop dt gt contracts logs fuel newIdx (accE ++ es) (accW ++ ws)
      | none =>
        let slice := logs.drop idx
        match processSlice (topicsMapFor dt gt cur.address) contracts cur.address slice with
        | Except.error e => Except.error e
        | Except.ok (es, ws) =>
          match slice.getLast? with
          | none => Except.error PyErr.indexError
          | some sliceLast =>
            if logs.getLast? = some sliceLast then Except.ok (accE ++ es, accW ++ ws)
            else Except.error PyErr.indexError

/-- `_decode_logs`: empty input gives an empty `EventDict`; otherwise scan
from index 0, format every decoded event, and build the `EventDict`
alongside the emitted warnings. -/
def _decode_logs (dt : DeploymentTopics) (gt : TopicMap)
    (contracts : List (String × Option Contract)) (logs : List Log) :
    Except PyErr (EventDict (Option String) (Option String) × List String) :=
  if logs.isEmpty then Except.ok (mkEventDict [], [])
  else
    match decodeLoop dt gt contracts logs (logs.length + 1) 0 [] [] with
    | Except.error e => Except.error e
    | Except.ok (es, ws) =>
      Except.ok (mkEventDict ((es.map format_event).map
        (fun e => FiredEvent.mk e.name e.address
          (e.data.map (fun f => (f.name, f.value))))), ws)

/-- Entrywise reference decoding: every log decoded once, in the original
order, against the topic map of its own emitting address, the first raised
error escaping. -/
def decodePointwiseAll (dt : DeploymentTopics) (gt : TopicMap)
    (contracts : List (String × Option Contract)) :
    List Log → Except PyErr (List DecodedEvent × List String)
  | [] => Except.ok ([], [])
  | l :: rest =>
    match processItem (topicsMapFor dt gt l.address) contracts l.address l with
    | Except.error e => Except.error e
    | Except.ok (oe, w) =>
      match decodePointwiseAll dt gt contracts rest with
      | Except.error e => Except.error e
      | Except.ok (es, ws) => Except.ok (oe.toList ++ es, w ++ ws)

/-- Example global topic map: `0x01 → EvA`, `0x02 → EvB`, no inputs. -/
def exTopics : TopicMap :=
  [("0x01", TopicEntry.mk "EvA" []), ("0x02", TopicEntry.mk "EvB" [])]

def exLogA : Log := Log.mk "0xA" [[1]] "0x"

def exLogB : Log := Log.mk "0xB" [[2]] "0x"

def exEvA : DecodedEvent := DecodedEvent.mk (some "EvA") "0xA" true []

def exEvB : DecodedEvent := DecodedEvent.mk (some "EvB") "0xB" true []

/-- Two same-address logs with topic `0x09`, unknown to every map. -/
def exLogU1 : Log := Log.mk "0xA" [[9]] "0x01"

def exLogU2 : Log := Log.mk "0xA" [[9]] "0x02"

/-- A contract with an empty selector table. -/
def exContractEmpty : Contract :=
  Contract.mk [] (fun _ => none) (fun _ => [])

theorem alookup_aset_self {α β : Type} [DecidableEq α]
    (m : List (α × β)) (k : α) (v : β) : alookup (aset m k v) k = some v := by
  induction m with
  | nil => simp [aset, alookup]
  | cons p rest ih =>
    by_cases h : p.1 = k
    · simp [aset, h, alookup]
    · simp [aset, h, alookup, ih]

theorem alookup_aset_ne {α β : Type} [DecidableEq α]
    (m : List (α × β)) (k k' : α) (v : β) (h : k' ≠ k) :
    alookup (aset m k v) k' = alookup m k' := by
  have hk : ¬ k = k' := fun he => h he.symm
  induction m with
  | nil => simp [aset, alookup, hk]
  | cons p rest ih =>
    by_cases hp : p.1 = k
    · have hp' : ¬ p.1 = k' := by rw [hp]; exact hk
      simp [aset, hp, alookup, hk, hp']
    · by_cases hpk : p.1 = k'
      · simp [aset, hp, alookup, hpk, h]
      · simp [aset, hp, alookup, hpk, h, ih]

theorem alookup_mergeStep_ne (m : TopicMap) (kv : String × TopicEntry)
    (k' : String) (h : k' ≠ kv.1) :
    alookup (mergeStep m kv) k' = alookup m k' := by
  unfold mergeStep
  cases halo : alookup m kv.1 with
  | none => simpa using alookup_aset_ne m kv.1 k' kv.2 h
  | some old =>
    by_cases h1 : kv.2 = old
    · simp [h1]
    · by_cases h2 : hasIndexedInput old = false
      · simpa [h1, h2] using alookup_aset_ne m kv.1 k' kv.2 h
      · simp [h1, h2]

theorem alookup_mergeTopics_notin (existing incoming : TopicMap) (k : String)
    (h : ∀ p ∈ incoming, p.1 ≠ k) :
    alookup (mergeTopics existing incoming) k = alookup existing k := by
  induction incoming generalizing existing with
  | nil => rfl
  | cons p rest ih =>
    have hp : p.1 ≠ k := h p (List.mem_cons_self p rest)
    have hrest : ∀ q ∈ rest, q.1 ≠ k := fun q hq => h q (List.mem_cons_of_mem p hq)
    calc alookup (mergeTopics existing (p :: rest)) k
        = alookup (mergeTopics (mergeStep existing p) rest) k := rfl
      _ = alookup (mergeStep existing p) k := ih (mergeStep existing p) hrest
      _ = alookup existing k := alookup_mergeStep_ne existing p k (fun he => hp he.symm)

/-- C1 — For every merge of an incoming topic map into the existing global
topic map, and every `(k, v)` binding of the incoming map: if `k` is absent
from the existing map it is added with value `v`; an identical entry is kept
unchanged; a differing entry is replaced by `v` exactly when the existing
entry has no indexed input, and kept otherwise — in particular an entry
containing an indexed input is never replaced. -/
theorem merge_pointwise (existing incoming : TopicMap) (k : String) (v : TopicEntry)
    (hnd : (incoming.map Prod.fst).Nodup) (hmem : (k, v) ∈ incoming) :
    (alookup (mergeTopics existing incoming) k =
      some (match alookup existing k with
            | none => v
            | some old => if v = old then old
                          else if hasIndexedInput old = false then v else old))
    ∧ (∀ old, alookup existing k = some old → hasIndexedInput old = true →
        alookup (mergeTopics existing incoming) k = some old) := by
  have main : alookup (mergeTopics existing incoming) k =
      some (match alookup existing k with
            | none => v
            | some old => if v = old then old
                          else if hasIndexedInput old = false then v else old) := by
    induction incoming generalizing existing with
    | nil => exact absurd hmem (List.not_mem_nil (k, v))
    | cons p rest ih =>
      rcases List.mem_cons.mp hmem with hhead | htail
      · -- `(k, v)` is the head binding; `k` does not occur in `rest`
        subst hhead
        have hknotin : ∀ q ∈ rest, q.1 ≠ k := by
          intro q hq hqk
          have : k ∈ rest.map Prod.fst := hqk ▸ List.mem_map_of_mem Prod.fst hq
          exact (List.nodup_cons.mp hnd).1 this
        have hstep : alookup (mergeTopics existing ((k, v) :: rest)) k =
            alookup (mergeStep existing (k, v)) k :=
          alookup_mergeTopics_notin (mergeStep existing (k, v)) rest k hknotin
        rw [hstep]
        unfold mergeStep
        cases halo : alookup existing k with
        | none => simpa using alookup_aset_self existing k v
        | some old =>
          by_cases h1 : v = old
          · simp [h1, halo]
          · by_cases h2 : hasIndexedInput old = false
            · simpa [h1, h2] using alookup_aset_self existing k v
            · simp [h1, h2, halo]
      · -- `(k, v)` lies in `rest`, so the head key differs from `k`
        have hne : p.1 ≠ k := by
          intro hpk
          apply (List.nodup_cons.mp hnd).1
          rw [hpk]
          exact (List.mem_map_of_mem Prod.fst htail : (k, v).1 ∈ rest.map Prod.fst)
        have hpres : alookup (mergeStep existing p) k = alookup existing k :=
          alookup_mergeStep_ne existing p k (fun he => hne he.symm)
        have := ih (mergeStep existing p) (List.nodup_cons.mp hnd).2 htail
        rw [show mergeTopics existing (p :: rest) =
              mergeTopics (mergeStep existing p) rest from rfl, this, hpres]
  refine ⟨main, ?_⟩
  intro old holdeq hindexed
  rw [main, holdeq]
  by_cases h1 : v = old
  · simp [h1]
  · simp [h1, hindexed]

/-- Witness for `merge_pointwise`: a two-entry incoming map merged over a map
whose entry for `"0xaa"` differs and has no indexed input is replaced. -/
theorem merge_pointwise_witness :
    (([("0xaa", TopicEntry.mk "Transfer"
          [AbiEventInput.mk "value" "uint256" true]),
       ("0xbb", TopicEntry.mk "Approval" [])] :
        TopicMap).map Prod.fst).Nodup
    ∧ alookup (mergeTopics
        [("0xaa", TopicEntry.mk "Transfer" [AbiEventInput.mk "value" "uint256" false])]
        [("0xaa", TopicEntry.mk "Transfer" [AbiEventInput.mk "value" "uint256" true]),
         ("0xbb", TopicEntry.mk "Approval" [])]) "0xaa" =
      some (TopicEntry.mk "Transfer" [AbiEventInput.mk "value" "uint256" true]) := by
  constructor
  · decide
  · exact (merge_pointwise
      [("0xaa", TopicEntry.mk "Transfer" [AbiEventInput.mk "value" "uint256" false])]
      [("0xaa", TopicEntry.mk "Transfer" [AbiEventInput.mk "value" "uint256" true]),
       ("0xbb", TopicEntry.mk "Approval" [])]
      "0xaa" (TopicEntry.mk "Transfer" [AbiEventInput.mk "value" "uint256" true])
      (by decide) (by decide)).1

/-- C9 — Merging a topic map whose entries are all already present
identically in the existing map (in particular, merging a map into itself)
leaves the map unchanged and does not trigger the persisted cache write. -/
theorem merge_idempotent (existing incoming : TopicMap)
    (hall : ∀ p ∈ incoming, alookup existing p.1 = some p.2) :
    mergeTopics existing incoming = existing
    ∧ mergeWrites existing incoming = false := by
  have main : mergeTopics existing incoming = existing := by
    induction incoming with
    | nil => rfl
    | cons p rest ih =>
      have hp : alookup existing p.1 = some p.2 := hall p (List.mem_cons_self p rest)
      have hstep : mergeStep existing p = existing := by
        unfold mergeStep
        simp [hp]
      rw [show mergeTopics existing (p :: rest) =
            mergeTopics (mergeStep existing p) rest from rfl, hstep]
      exact ih (fun q hq => hall q (List.mem_cons_of_mem p hq))
  exact ⟨main, by simp [mergeWrites, main]⟩

/-- Witness for `merge_idempotent`: merging a one-entry map into itself. -/
theorem merge_idempotent_witness :
    (∀ p ∈ ([("0xaa", TopicEntry.mk "Transfer"
        [AbiEventInput.mk "value" "uint256" true])] : TopicMap),
      alookup [("0xaa", TopicEntry.mk "Transfer"
        [AbiEventInput.mk "value" "uint256" true])] p.1 = some p.2)
    ∧ mergeWrites
        [("0xaa", TopicEntry.mk "Transfer" [AbiEventInput.mk "value" "uint256" true])]
        [("0xaa", TopicEntry.mk "Transfer" [AbiEventInput.mk "value" "uint256" true])]
      = false := by
  constructor
  · decide
  · exact (merge_idempotent
      [("0xaa", TopicEntry.mk "Transfer" [AbiEventInput.mk "value" "uint256" true])]
      [("0xaa", TopicEntry.mk "Transfer" [AbiEventInput.mk "value" "uint256" true])]
      (by decide)).2

theorem mem_firstKeys_foldl {α : Type} [DecidableEq α] (l : List α) :
    ∀ (acc : List α) (a : α),
      (a ∈ l.foldl (fun acc n => if n ∈ acc then acc else acc ++ [n]) acc ↔
        a ∈ acc ∨ a ∈ l) := by
  induction l with
  | nil => intro acc a; simp
  | cons x l ih =>
    intro acc a
    by_cases hx : x ∈ acc
    · simp only [List.foldl_cons, if_pos hx, ih, List.mem_cons]
      constructor
      · rintro (h | h)
        · exact Or.inl h
        · exact Or.inr (Or.inr h)
      · rintro (h | h | h)
        · exact Or.inl h
        · exact Or.inl (h ▸ hx)
        · exact Or.inr h
    · simp only [List.foldl_cons, if_neg hx, ih, List.mem_append,
        List.mem_singleton, List.mem_cons]
      tauto

theorem nodup_firstKeys_foldl {α : Type} [DecidableEq α] (l : List α) :
    ∀ (acc : List α), acc.Nodup →
      (l.foldl (fun acc n => if n ∈ acc then acc else acc ++ [n]) acc).Nodup := by
  induction l with
  | nil => intro acc h; simpa using h
  | cons x l ih =>
    intro acc hacc
    by_cases hx : x ∈ acc
    · simpa only [List.foldl_cons, if_pos hx] using ih acc hacc
    · rw [List.foldl_cons, if_neg hx]
      refine ih (acc ++ [x]) ?_
      rw [List.nodup_append]
      exact ⟨hacc, List.nodup_singleton x,
        fun a ha hb => hx ((List.mem_singleton.mp hb) ▸ ha)⟩

theorem length_filter_cons {α : Type} (p : α → Bool) (x : α) (l : List α) :
    ((x :: l).filter p).length = (if p x then 1 else 0) + (l.filter p).length := by
  cases hp : p x
  · simp [List.filter_cons, hp]
  · simp [List.filter_cons, hp]
    omega

theorem sum_map_add_distrib {α : Type} (K : List α) (f g : α → Nat) :
    (K.map (fun n => f n + g n)).sum = (K.map f).sum + (K.map g).sum := by
  induction K with
  | nil => rfl
  | cons x K ih => simp [ih]; omega

theorem sum_indicator_one {α : Type} [DecidableEq α] (K : List α) (x : α)
    (hnd : K.Nodup) (hx : x ∈ K) :
    (K.map (fun n => if x = n then 1 else 0)).sum = 1 := by
  induction K with
  | nil => exact absurd hx (List.not_mem_nil x)
  | cons y K ih =>
    rcases List.mem_cons.mp hx with hxy | hxK
    · have hxnot : x ∉ K := hxy ▸ (List.nodup_cons.mp hnd).1
      have hz : (K.map (fun n => if x = n then 1 else 0)).sum = 0 := by
        apply List.sum_eq_zero
        intro v hv
        rcases List.mem_map.mp hv with ⟨n, hn, hvn⟩
        have : ¬ x = n := fun he => hxnot (he ▸ hn)
        simpa [this] using hvn.symm
      simp [← hxy, hz]
    · have hyx : ¬ x = y := by
        intro he
        exact (List.nodup_cons.mp hnd).1 (he ▸ hxK)
      simp [hyx, ih (List.nodup_cons.mp hnd).2 hxK]

theorem sum_counts_of_cover {α : Type} [DecidableEq α] (K : List α)
    (hnd : K.Nodup) :
    ∀ (L : List α), (∀ a ∈ L, a ∈ K) →
      (K.map (fun n => (L.filter (fun x => decide (x = n))).length)).sum = L.length := by
  intro L
  induction L with
  | nil =>
    intro _
    apply List.sum_eq_zero
    intro v hv
    rcases List.mem_map.mp hv with ⟨n, _, hvn⟩
    simpa using hvn.symm
  | cons x L ih =>
    intro hcov
    have hx : x ∈ K := hcov x (List.mem_cons_self x L)
    have hL : ∀ a ∈ L, a ∈ K := fun a ha => hcov a (List.mem_cons_of_mem x ha)
    have hsplit : (K.map (fun n => ((x :: L).filter (fun y => decide (y = n))).length)).sum
        = (K.map (fun n => (if x = n then 1 else 0)
            + (L.filter (fun y => decide (y = n))).length)).sum := by
      congr 1
      apply List.map_congr_left
      intro n _
      rw [length_filter_cons]
      by_cases he : x = n <;> simp [he]
    rw [hsplit, sum_map_add_distrib, sum_indicator_one K x hnd hx, ih hL]
    simp [Nat.add_comm]

theorem map_snd_enumFrom {α β : Type} (f : α → β) (l : List α) :
    ∀ n, ((List.enumFrom n l).map (fun pi => f pi.2)) = l.map f := by
  induction l with
  | nil => intro n; rfl
  | cons x l ih => intro n; simp [List.enumFrom, ih]

theorem keys_mkEventDict_fold {α β : Type} [DecidableEq α] [DecidableEq β]
    (ordered : List (SingleItem α β)) (full : List (SingleItem α β)) :
    ∀ (d : List (α × GroupItem α β)),
      ((ordered.foldl (fun d event =>
          if event.name ∈ d.map Prod.fst then d
          else
            d ++ [(event.name,
              GroupItem.mk event.name none
                (full.filter (fun i => decide (i.name = event.name)))
                ((full.filter (fun i => decide (i.name = event.name))).map
                  (fun i => i.pos.headD 0)))]) d).map Prod.fst)
      = (ordered.map (fun i => i.name)).foldl
          (fun acc n => if n ∈ acc then acc else acc ++ [n]) (d.map Prod.fst) := by
  induction ordered with
  | nil => intro d; rfl
  | cons e ordered ih =>
    intro d
    by_cases he : e.name ∈ d.map Prod.fst
    · simp only [List.foldl_cons, if_pos he, List.map_cons, ih]
    · simp only [List.foldl_cons, if_neg he, List.map_cons, ih, List.map_append]
      rfl

/-- C2 — For every `EventDict` built from a decoded event list, summing
`count(name)` over all names in `keys()` gives `len`: the name-indexed
grouping partitions the ordered event sequence. -/
theorem eventdict_grouping {α β : Type} [DecidableEq α] [DecidableEq β]
    (events : List (FiredEvent α β)) :
    ((EventDict.keys (mkEventDict events)).map
        (fun n => EventDict.count (mkEventDict events) n)).sum
      = EventDict.len (mkEventDict events) := by
  set L : List α := events.map (fun e => e.name) with hL
  have hordered : (mkEventDict events).ordered.map (fun i => i.name) = L := by
    show ((events.enum.map (fun pi =>
        SingleItem.mk pi.2.name (some pi.2.address) [mkOrderedDict pi.2.data] [pi.1])).map
          (fun i => i.name)) = L
    rw [List.map_map]
    exact map_snd_enumFrom (fun e => e.name) events 0
  have hkeys : EventDict.keys (mkEventDict events) = firstKeys L := by
    show ((mkEventDict events).dict).map Prod.fst = firstKeys L
    have := keys_mkEventDict_fold
      ((mkEventDict events).ordered) ((mkEventDict events).ordered) []
    rw [hordered] at this
    exact this
  have hcount : ∀ n, EventDict.count (mkEventDict events) n
      = (L.filter (fun x => decide (x = n))).length := by
    intro n
    show ((mkEventDict events).ordered.filter (fun i => decide (i.name = n))).length
      = (L.filter (fun x => decide (x = n))).length
    rw [← hordered]
    rw [← List.countP_eq_length_filter, ← List.countP_eq_length_filter,
      List.countP_map]
    rfl
  have hlen : EventDict.len (mkEventDict events) = L.length := by
    show (mkEventDict events).ordered.length = L.length
    rw [← hordered, List.length_map]
  have hnd : (firstKeys L).Nodup := nodup_firstKeys_foldl L [] List.nodup_nil
  have hcov : ∀ a ∈ L, a ∈ firstKeys L := by
    intro a ha
    exact (mem_firstKeys_foldl L [] a).mpr (Or.inr ha)
  rw [hkeys, hlen]
  calc ((firstKeys L).map (fun n => EventDict.count (mkEventDict events) n)).sum
      = ((firstKeys L).map (fun n => (L.filter (fun x => decide (x = n))).length)).sum := by
        congr 1
        exact List.map_congr_left (fun n _ => hcount n)
    _ = L.length := sum_counts_of_cover (firstKeys L) hnd L hcov

/-- C4 — For every non-empty event group and string key `k`, lookup returns
the value of field `k` from the group's first firing; failing that, the
value of the field named `k ++ " (indexed)"`; failing both, an
`EventLookupError` whose message lists the valid field names of this event. -/
theorem group_getitem_cases (g : GroupItem String String)
    (first : SingleItem String String) (rest : List (SingleItem String String))
    (m : List (String × Value)) (hmem : g.members = first :: rest)
    (hfd : first.data.head? = some m) (k : String) :
    GroupItem.getStr g k =
      match alookup m k with
      | some v => Except.ok v
      | none =>
        match alookup m (k ++ " (indexed)") with
        | some v => Except.ok v
        | none => Except.error (PyErr.lookupError
            ("Unknown key '" ++ k ++ "' - the '" ++ g.name ++
              "' event includes these keys: " ++
              String.intercalate ", "
                (((m.map Prod.fst).map stripIndexed).map stripIndexed))) := by
  unfold GroupItem.getStr
  rw [hmem]
  simp only [List.head?_cons, SingleItem.containsKey, SingleItem.getStr,
    SingleItem.skeys, hfd]
  cases h1 : alookup m k with
  | some v => simp [h1]
  | none =>
    cases h2 : alookup m (k ++ " (indexed)") with
    | some v => simp [h1, h2]
    | none => simp [h1, h2]

/-- Witness for `group_getitem_cases`: a group holding one `Transfer`
firing; looking up `"value"` hits the indexed retry. -/
theorem group_getitem_witness :
    (GroupItem.mk "Transfer" none
      [SingleItem.mk "Transfer" (some "0xA1")
        [[("value (indexed)", Value.num 100)]] [0]] [0]).members
        = SingleItem.mk "Transfer" (some "0xA1")
            [[("value (indexed)", Value.num 100)]] [0] :: []
    ∧ GroupItem.getStr
        (GroupItem.mk "Transfer" none
          [SingleItem.mk "Transfer" (some "0xA1")
            [[("value (indexed)", Value.num 100)]] [0]] [0]) "value"
      = Except.ok (Value.num 100) := by
  refine ⟨rfl, ?_⟩
  have h := group_getitem_cases
    (GroupItem.mk "Transfer" none
      [SingleItem.mk "Transfer" (some "0xA1")
        [[("value (indexed)", Value.num 100)]] [0]] [0])
    (SingleItem.mk "Transfer" (some "0xA1")
      [[("value (indexed)", Value.num 100)]] [0])
    [] [("value (indexed)", Value.num 100)] rfl rfl "value"
  simpa using h

theorem watchStep_repeats (now : Int) (e : EventWatchData) :
    (watchStep now e).1.repeats = e.repeats := by
  unfold watchStep cooldown_time_over_get check_timer
  by_cases h : now - e.last_trigger_time ≥ e.delay
  · simp [h]
  · cases hc : e.cooldown_flag <;> simp [h, hc]

/-- C7 (amended) — Every poll pass removes exactly the non-repeating
subscriptions: the surviving list is the processed image of the repeating
ones, so a `repeat=False` subscription is gone after the first pass that
iterates over it, whether or not its cooldown was observed elapsed or any
log matched. -/
theorem watchPass_prunes_nonrepeating (now : Int) (subs : List EventWatchData) :
    (watchPass now subs).1
      = (subs.filter (fun e => e.repeats)).map (fun e => (watchStep now e).1)
    ∧ ∀ e ∈ (watchPass now subs).1, e.repeats = true := by
  constructor
  · show ((subs.map (watchStep now)).map (fun p => p.1)).filter (fun e => e.repeats)
      = (subs.filter (fun e => e.repeats)).map (fun e => (watchStep now e).1)
    rw [List.map_map, List.filter_map]
    congr 1
    apply List.filter_congr
    intro x _
    exact watchStep_repeats now x
  · intro e he
    exact (List.mem_filter.mp he).2

/-- C7 counterexample — A `repeat=False` subscription whose cooldown the
pass does not observe as elapsed (delay 2000 ms, only 100 ms passed, flag
unset) is nevertheless removed from the active set by that very pass, and
no task was enqueued for it. -/
theorem watchPass_removes_before_cooldown :
    (cooldown_time_over_get (EventWatchData.mk 2000 false 0 false []) 100).1 = false
    ∧ (watchPass 100 [EventWatchData.mk 2000 false 0 false []]).1 = []
    ∧ (watchPass 100 [EventWatchData.mk 2000 false 0 false []]).2.1 = [] := by
  refine ⟨?_, ?_, ?_⟩ <;> rfl

/-- C8 — When the poll loop observes an elapsed cooldown and finds new log
entries, the enqueued task carries the subscription's trigger state and
batch, while the subscription keeps its last-trigger timestamp and its
(just set) cooldown flag; the trigger function, once actually run by the
dispatch loop, is what clears the flag and restamps the timestamp. -/
theorem poll_enqueue_preserves_cooldown (now : Int) (e : EventWatchData)
    (hover : (cooldown_time_over_get e now).1 = true)
    (hfound : e.pending ≠ []) :
    (watchStep now e).2.1 = some ((watchStep now e).1, e.pending)
    ∧ (watchStep now e).1.last_trigger_time = e.last_trigger_time
    ∧ (watchStep now e).1.cooldown_flag
        = ((cooldown_time_over_get e now).2).cooldown_flag
    ∧ (∀ tnow ev,
        (trigger_callback ((watchStep now e).1) tnow ev).1.cooldown_flag = false
        ∧ (trigger_callback ((watchStep now e).1) tnow ev).1.last_trigger_time = tnow) := by
  have hlen : ¬ e.pending.length = 0 := by
    intro h0
    exact hfound (List.length_eq_zero.mp h0)
  have hpend : (cooldown_time_over_get e now).2.pending = e.pending := by
    unfold cooldown_time_over_get
    by_cases h : now - e.last_trigger_time ≥ e.delay <;> simp [h]
  have hltt : (cooldown_time_over_get e now).2.last_trigger_time
      = e.last_trigger_time := by
    unfold cooldown_time_over_get
    by_cases h : now - e.last_trigger_time ≥ e.delay <;> simp [h]
  have hg : cooldown_time_over_get e now
      = (true, (cooldown_time_over_get e now).2) := by
    rw [← hover]
  unfold watchStep
  rw [hg]
  refine ⟨?_, ?_, ?_, fun tnow ev => ⟨rfl, rfl⟩⟩
  · simp only [hpend, hlen, not_false_eq_true, ne_eq, if_pos]
  · simpa using hltt
  · rfl

/-- Witness for `poll_enqueue_preserves_cooldown`: a subscription with an
elapsed cooldown and one pending entry. -/
theorem poll_enqueue_witness :
    (cooldown_time_over_get (EventWatchData.mk 2000 true 0 false [7]) 2500).1 = true
    ∧ (EventWatchData.mk 2000 true 0 false [7]).pending ≠ []
    ∧ (watchStep 2500 (EventWatchData.mk 2000 true 0 false [7])).2.1
        = some ((watchStep 2500 (EventWatchData.mk 2000 true 0 false [7])).1, [7]) := by
  refine ⟨by decide, by decide, ?_⟩
  exact (poll_enqueue_preserves_cooldown 2500
    (EventWatchData.mk 2000 true 0 false [7]) (by decide) (by decide)).1

/-- C10 — Calling `stop(wait=True)` on a watcher that never registered a
subscription (threads never started) raises `RuntimeError` from joining an
unstarted thread, whereas after a registration the same call returns
normally. -/
theorem stop_idle_raises :
    (EventWatcher.init.stop true).2 = Except.error PyErr.runtimeError
    ∧ ∀ s : EventWatchData,
        ((EventWatcher.init.add_event_callback s).stop true).2 = Except.ok () := by
  exact ⟨rfl, fun s => rfl⟩

theorem processSlice_eq_pointwise (dt : DeploymentTopics) (gt : TopicMap)
    (contracts : List (String × Option Contract)) (addr : String) :
    ∀ (slice : List Log), (∀ l ∈ slice, l.address = addr) →
      processSlice (topicsMapFor dt gt addr) contracts addr slice
        = decodePointwiseAll dt gt contracts slice := by
  intro slice
  induction slice with
  | nil => intro _; rfl
  | cons l rest ih =>
    intro h
    have hl : l.address = addr := h l (List.mem_cons_self l rest)
    have hrest := ih (fun x hx => h x (List.mem_cons_of_mem l hx))
    unfold processSlice decodePointwiseAll
    rw [hl, hrest]

theorem decodePointwiseAll_cons (dt : DeploymentTopics) (gt : TopicMap)
    (contracts : List (String × Option Contract)) (l : Log) (rest : List Log) :
    decodePointwiseAll dt gt contracts (l :: rest)
      = match processItem (topicsMapFor dt gt l.address) contracts l.address l with
        | Except.error e => Except.error e
        | Except.ok (oe, w) =>
          match decodePointwiseAll dt gt contracts rest with
          | Except.error e => Except.error e
          | Except.ok (es, ws) => Except.ok (oe.toList ++ es, w ++ ws) := rfl

theorem decodePointwiseAll_append (dt : DeploymentTopics) (gt : TopicMap)
    (contracts : List (String × Option Contract)) (xs ys : List Log) :
    decodePointwiseAll dt gt contracts (xs ++ ys)
      = match decodePointwiseAll dt gt contracts xs with
        | Except.error e => Except.error e
        | Except.ok r =>
          match decodePointwiseAll dt gt contracts ys with
          | Except.error e => Except.error e
          | Except.ok s => Except.ok (r.1 ++ s.1, r.2 ++ s.2) := by
  induction xs with
  | nil =>
    cases hys : decodePointwiseAll dt gt contracts ys with
    | error e => simpa [decodePointwiseAll] using hys
    | ok s => simpa [decodePointwiseAll] using hys
  | cons l xs ih =>
    show decodePointwiseAll dt gt contracts (l :: (xs ++ ys)) = _
    rw [decodePointwiseAll_cons, decodePointwiseAll_cons, ih]
    cases hpi : processItem (topicsMapFor dt gt l.address) contracts l.address l with
    | error e => rfl
    | ok r =>
      obtain ⟨oe, w⟩ := r
      cases hxs : decodePointwiseAll dt gt contracts xs with
      | error e => rfl
      | ok r' =>
        obtain ⟨es, ws⟩ := r'
        cases hys : decodePointwiseAll dt gt contracts ys with
        | error e => rfl
        | ok s =>
          obtain ⟨es2, ws2⟩ := s
          simp [List.append_assoc]

theorem find?_decomp {α : Type} (p : α → Bool) :
    ∀ (l : List α) (x : α), l.find? p = some x →
      ∃ as bs, l = as ++ x :: bs ∧ (∀ a ∈ as, p a = false) ∧ p x = true := by
  intro l
  induction l with
  | nil => intro x h; simp [List.find?] at h
  | cons y l ih =>
    intro x h
    cases hp : p y with
    | true =>
      rw [List.find?_cons_of_pos l hp] at h
      cases h
      exact ⟨[], l, rfl, by intro a ha; simp at ha, hp⟩
    | false =>
      rw [List.find?_cons_of_neg l (by simp [hp])] at h
      obtain ⟨as, bs, hdec, hall, hx⟩ := ih x h
      refine ⟨y :: as, bs, by rw [hdec]; rfl, ?_, hx⟩
      intro a ha
      rcases List.mem_cons.mp ha with hay | haas
      · rw [hay, hp]
      · exact hall a haas

theorem findIdx_append_cons {α : Type} [DecidableEq α]
    (ys : List α) (x : α) (zs : List α) (hx : x ∉ ys) :
    (ys ++ x :: zs).findIdx (fun i => decide (i = x)) = ys.length := by
  induction ys with
  | nil => simp [List.findIdx_cons]
  | cons y ys ih =>
    have hyx : ¬ (y = x) := by
      intro he
      exact hx (he ▸ List.mem_cons_self y ys)
    have hys : x ∉ ys := fun h => hx (List.mem_cons_of_mem y h)
    have hd : decide (y = x) = false := by simp [hyx]
    simp [List.cons_append, List.findIdx_cons, hd, ih hys]

theorem decodeLoop_eq (dt : DeploymentTopics) (gt : TopicMap)
    (contracts : List (String × Option Contract)) (logs : List Log)
    (hnd : logs.Nodup) :
    ∀ (fuel idx : Nat) (accE : List DecodedEvent) (accW : List String),
      idx < logs.length → logs.length - idx < fuel →
      decodeLoop dt gt contracts logs fuel idx accE accW
        = (decodePointwiseAll dt gt contracts (logs.drop idx)).map
            (fun r => (accE ++ r.1, accW ++ r.2)) := by
  intro fuel
  induction fuel with
  | zero =>
    intro idx accE accW hidx hfuel
    omega
  | succ fuel ih =>
    intro idx accE accW hidx hfuel
    have hcur : logs[idx]? = some (logs.get ⟨idx, hidx⟩) := by
      rw [List.getElem?_eq_getElem hidx]
      rfl
    unfold decodeLoop
    rw [hcur]
    dsimp only
    set cur : Log := logs.get ⟨idx, hidx⟩ with hcurdef
    have hdhead : (logs.drop idx).head? = some cur := by
      rw [List.head?_drop, List.getElem?_eq_getElem hidx]
      rfl
    cases hfind : (logs.drop idx).find? (fun i => decide (i.address ≠ cur.address)) with
    | none =>
      dsimp only
      have hall : ∀ l ∈ logs.drop idx, l.address = cur.address := by
        intro l hl
        have := List.find?_eq_none.mp hfind l hl
        simpa using this
      have hdne : logs.drop idx ≠ [] := by
        intro h0
        rw [h0] at hdhead
        simp at hdhead
      have hlast : (logs.drop idx).getLast? = some ((logs.drop idx).getLast hdne) :=
        List.getLast?_eq_getLast _ hdne
      have hgleq : logs.getLast? = some ((logs.drop idx).getLast hdne) := by
        conv_lhs => rw [← List.take_append_drop idx logs]
        rw [List.getLast?_append, hlast]
        rfl
      rw [processSlice_eq_pointwise dt gt contracts cur.address (logs.drop idx) hall]
      cases hpw : decodePointwiseAll dt gt contracts (logs.drop idx) with
      | error e => rfl
      | ok r =>
        obtain ⟨es, ws⟩ := r
        simp [hlast, hgleq, Except.map]
    | some diffLog =>
      dsimp only
      obtain ⟨as, bs, hdecomp, hasall, hpx⟩ :=
        find?_decomp (fun i => decide (i.address ≠ cur.address)) (logs.drop idx) diffLog hfind
      have hdiffne : diffLog.address ≠ cur.address := by simpa using hpx
      have haseq : ∀ a ∈ as, a.address = cur.address := by
        intro a ha
        have := hasall a ha
        simpa using this
      have hasne : as ≠ [] := by
        intro h0
        rw [h0, List.nil_append] at hdecomp
        rw [hdecomp] at hdhead
        simp at hdhead
        exact hdiffne (by rw [hdhead])
      have haslen : 0 < as.length := List.length_pos.mpr hasne
      have hlogs : logs = (logs.take idx ++ as) ++ diffLog :: bs := by
        conv_lhs => rw [← List.take_append_drop idx logs]
        rw [hdecomp, List.append_assoc]
      have hnd2 : ((logs.take idx ++ as) ++ diffLog :: bs).Nodup := by
        rw [← hlogs]
        exact hnd
      have hdisj : (logs.take idx ++ as).Disjoint (diffLog :: bs) :=
        (List.nodup_append.mp hnd2).2.2
      have hnotin : diffLog ∉ logs.take idx ++ as :=
        fun hmem => hdisj hmem (List.mem_cons_self _ _)
      have hlen_take : (logs.take idx).length = idx := by
        rw [List.length_take]
        omega
      have hNewIdx : logs.findIdx (fun i => decide (i = diffLog)) = idx + as.length := by
        conv_lhs => rw [hlogs]
        rw [findIdx_append_cons _ diffLog bs hnotin]
        rw [List.length_append, hlen_take]
      have hslice : (logs.drop idx).take
          (logs.findIdx (fun i => decide (i = diffLog)) - idx) = as := by
        rw [hNewIdx, hdecomp]
        have h1 : idx + as.length - idx = as.length := by omega
        rw [h1]
        exact List.take_left' rfl
      obtain ⟨lastAs, hlastAs⟩ : ∃ a, as.getLast? = some a := by
        cases hga : as.getLast? with
        | none => exact absurd (List.getLast?_eq_none_iff.mp hga) hasne
        | some a => exact ⟨a, rfl⟩
      have hlastAs_mem : lastAs ∈ as := by
        obtain ⟨ys, hys⟩ := List.getLast?_eq_some_iff.mp hlastAs
        rw [hys]
        simp
      have hlastAs_notin : lastAs ∉ diffLog :: bs :=
        fun hmem => hdisj (List.mem_append_right _ hlastAs_mem) hmem
      have hbreak : ¬ (logs.getLast? = some lastAs) := by
        intro he
        have hgl : logs.getLast? = (diffLog :: bs).getLast? := by
          conv_lhs => rw [hlogs]
          rw [List.getLast?_append]
          cases hgb : (diffLog :: bs).getLast? with
          | none => exact absurd (List.getLast?_eq_none_iff.mp hgb) (List.cons_ne_nil _ _)
          | some b => rfl
        rw [hgl] at he
        obtain ⟨ys, hys⟩ := List.getLast?_eq_some_iff.mp he
        apply hlastAs_notin
        rw [hys]
        simp
      have hNewLt : idx + as.length < logs.length := by
        have hlen := congrArg List.length hlogs
        simp [List.length_append, hlen_take] at hlen
        omega
      have hdropNew : logs.drop (idx + as.length) = diffLog :: bs := by
        conv_lhs => rw [hlogs]
        exact List.drop_left' (by rw [List.length_append, hlen_take])
      rw [hslice, hdecomp, decodePointwiseAll_append,
        processSlice_eq_pointwise dt gt contracts cur.address as haseq]
      cases hpas : decodePointwiseAll dt gt contracts as with
      | error e => rfl
      | ok r =>
        obtain ⟨es, ws⟩ := r
        dsimp only
        rw [hlastAs]
        dsimp only
        rw [if_neg hbreak, hNewIdx,
          ih (idx + as.length) (accE ++ es) (accW ++ ws) hNewLt (by omega), hdropNew]
        cases hpbs : decodePointwiseAll dt gt contracts (diffLog :: bs) with
        | error e => rfl
        | ok s =>
          obtain ⟨es2, ws2⟩ := s
          simp [Except.map, List.append_assoc]

/-- C3 (amended) — For every sequence of pairwise-distinct log entries
(already ordered by occurrence), `_decode_logs` scans the input as maximal
contiguous same-address runs and returns exactly the entrywise decoding:
every entry is decoded once against its own address's topic map, the
successfully decoded events appear in the original order, and any raised
error escapes unchanged. -/
theorem decode_logs_scan (dt : DeploymentTopics) (gt : TopicMap)
    (contracts : List (String × Option Contract)) (logs : List Log)
    (hnd : logs.Nodup) :
    _decode_logs dt gt contracts logs
      = (decodePointwiseAll dt gt contracts logs).map
          (fun r => (mkEventDict ((r.1.map format_event).map
            (fun e => FiredEvent.mk e.name e.address
              (e.data.map (fun f => (f.name, f.value))))), r.2)) := by
  cases logs with
  | nil => rfl
  | cons l rest =>
    unfold _decode_logs
    rw [if_neg (by simp)]
    rw [decodeLoop_eq dt gt contracts (l :: rest) hnd ((l :: rest).length + 1) 0 [] []
      (by simp) (by omega)]
    rw [List.drop_zero]
    cases hpw : decodePointwiseAll dt gt contracts (l :: rest) with
    | error e => rfl
    | ok r =>
      obtain ⟨es, ws⟩ := r
      simp [Except.map]

/-- Witness for `decode_logs_scan`: two distinct logs from different
addresses. -/
theorem decode_logs_scan_witness :
    ([exLogB, exLogA].Nodup)
    ∧ _decode_logs [] exTopics [] [exLogB, exLogA]
        = (decodePointwiseAll [] exTopics [] [exLogB, exLogA]).map
            (fun r => (mkEventDict ((r.1.map format_event).map
              (fun e => FiredEvent.mk e.name e.address
                (e.data.map (fun f => (f.name, f.value))))), r.2)) :=
  ⟨by decide, decode_logs_scan [] exTopics [] [exLogB, exLogA] (by decide)⟩

/-- C3 counterexample — When an entry equal to the final entry occurs in an
earlier run (`[exLogB, exLogA, exLogB]`), the `log_slice[-1] == logs[-1]`
break fires after the first run: only the first entry reaches the result,
although all three entries decode successfully entrywise. -/
theorem decode_logs_dup_drops_entries :
    _decode_logs [] exTopics [] [exLogB, exLogA, exLogB]
      = Except.ok (mkEventDict [FiredEvent.mk (some "EvB") "0xB" []], [])
    ∧ decodePointwiseAll [] exTopics [] [exLogB, exLogA, exLogB]
      = Except.ok ([exEvB, exEvA, exEvB], []) := by
  constructor
  · rfl
  · rfl

/-- C5 counterexample — Two consecutive same-address logs whose topic is
absent from the applicable topic map are not dropped: decoding with
undecoded entries allowed keeps them as placeholder events, so the result
holds two events and no warning, where the claim expects zero events and
one warning per entry. -/
theorem decode_unknown_topic_kept :
    (_decode_logs [] [] [] [exLogU1, exLogU2]).map
        (fun r => (EventDict.len r.1, r.2.length))
      = Except.ok (2, 0) := by
  rfl

/-- C5 (amended) — Decoding two consecutive logs from the same address
whose entries each fail structural decode (an `EventError` for a known
topic) drops both entries, emits one warning per entry, and yields a
result with `len(result) == 0`. -/
theorem decode_two_eventerror_logs (dt : DeploymentTopics) (gt : TopicMap)
    (l1 l2 : Log) (m1 m2 : String) (haddr : l2.address = l1.address)
    (h1 : ethDecodeLog (topicsMapFor dt gt l1.address) l1 = Except.error m1)
    (h2 : ethDecodeLog (topicsMapFor dt gt l1.address) l2 = Except.error m2) :
    _decode_logs dt gt [] [l1, l2]
      = Except.ok (mkEventDict [],
          [l1.address ++ ": " ++ m1, l1.address ++ ": " ++ m2])
    ∧ EventDict.len
        (mkEventDict ([] : List (FiredEvent (Option String) (Option String)))) = 0 := by
  refine ⟨?_, rfl⟩
  have hfind : List.find? (fun i => decide (i.address ≠ l1.address)) [l1, l2] = none := by
    rw [List.find?_cons_of_neg _ (by simp), List.find?_cons_of_neg _ (by simp [haddr])]
    rfl
  have hpi1 : processItem (topicsMapFor dt gt l1.address) [] l1.address l1
      = Except.ok (none, [l1.address ++ ": " ++ m1]) := by
    simp [processItem, contractFor, h1]
  have hpi2 : processItem (topicsMapFor dt gt l1.address) [] l1.address l2
      = Except.ok (none, [l1.address ++ ": " ++ m2]) := by
    simp [processItem, contractFor, h2]
  have hps : processSlice (topicsMapFor dt gt l1.address) [] l1.address [l1, l2]
      = Except.ok ([], [l1.address ++ ": " ++ m1, l1.address ++ ": " ++ m2]) := by
    simp [processSlice, hpi1, hpi2]
  have hgl : [l1, l2].getLast? = some l2 := rfl
  unfold _decode_logs
  rw [if_neg (by simp)]
  unfold decodeLoop
  rw [show ([l1, l2])[0]? = some l1 from rfl]
  dsimp only
  simp only [List.drop_zero]
  rw [hfind]
  dsimp only
  rw [hps]
  dsimp only
  rw [hgl]
  dsimp only
  simp

/-- Witness for `decode_two_eventerror_logs`: two same-address logs with a
known topic (`0x03`) but malformed hex data. -/
theorem decode_two_eventerror_witness :
    ((Log.mk "0xA" [[3]] "0xqq").address = (Log.mk "0xA" [[3]] "0xzz").address)
    ∧ ethDecodeLog
        (topicsMapFor [] [("0x03", TopicEntry.mk "EvC" [])]
          (Log.mk "0xA" [[3]] "0xzz").address) (Log.mk "0xA" [[3]] "0xzz")
        = Except.error "Unable to decode event data"
    ∧ _decode_logs [] [("0x03", TopicEntry.mk "EvC" [])] []
        [Log.mk "0xA" [[3]] "0xzz", Log.mk "0xA" [[3]] "0xqq"]
      = Except.ok (mkEventDict [],
          ["0xA" ++ ": " ++ "Unable to decode event data",
           "0xA" ++ ": " ++ "Unable to decode event data"]) := by
  refine ⟨rfl, rfl, ?_⟩
  exact (decode_two_eventerror_logs [] [("0x03", TopicEntry.mk "EvC" [])]
    (Log.mk "0xA" [[3]] "0xzz") (Log.mk "0xA" [[3]] "0xqq")
    "Unable to decode event data" "Unable to decode event data"
    rfl rfl rfl).1

/-- C6 (amended) — For every log with at least one topic and well-formed
hex data, each of the four decline conditions — selector not recognized,
nonzero padding in the first topic's tail, payload not containing the
selector bytes, ABI-decode failure — makes `_decode_ds_note` return
nothing so standard decoding is attempted instead, and under those two
well-formedness hypotheses no exception escapes; a topicless log or
malformed hex data, however, raises (see the counterexample). -/
theorem ds_note_decline (log : Log) (contract : Contract) (t0 : Bytes) (bs : Bytes)
    (htop : log.topics.head? = some t0)
    (hhex : hexToBytes (String.drop log.data 2) = some bs) :
    (alookup contract.selectors (bytesToHex (t0.take 4)) = none →
      _decode_ds_note log contract = Except.ok none)
    ∧ ((t0.drop 4).sum ≠ 0 → _decode_ds_note log contract = Except.ok none)
    ∧ (bytesFind (t0.take 4) bs = none → _decode_ds_note log contract = Except.ok none)
    ∧ (∀ i, bytesFind (t0.take 4) bs = some i →
        contract.decode_input (bs.drop i) = none →
        _decode_ds_note log contract = Except.ok none)
    ∧ (∃ r, _decode_ds_note log contract = Except.ok r) := by
  unfold _decode_ds_note
  rw [htop]
  dsimp only
  cases hsel : alookup contract.selectors (bytesToHex (t0.take 4)) with
  | none =>
    exact ⟨fun _ => rfl, fun _ => rfl, fun _ => rfl, fun i _ _ => rfl, ⟨none, rfl⟩⟩
  | some name =>
    dsimp only
    by_cases hsum : (t0.drop 4).sum ≠ 0
    · rw [if_pos hsum]
      exact ⟨fun _ => rfl, fun _ => rfl, fun _ => rfl, fun i _ _ => rfl, ⟨none, rfl⟩⟩
    · rw [if_neg hsum, hhex]
      dsimp only
      cases hbf : bytesFind (t0.take 4) bs with
      | none =>
        exact ⟨fun _ => rfl, fun _ => rfl, fun _ => rfl, fun i _ _ => rfl, ⟨none, rfl⟩⟩
      | some i =>
        dsimp only
        cases hdi : contract.decode_input (bs.drop i) with
        | none =>
          exact ⟨fun _ => rfl, fun _ => rfl, fun _ => rfl, fun j _ _ => rfl, ⟨none, rfl⟩⟩
        | some fa =>
          refine ⟨?_, ?_, ?_, ?_, ⟨_, rfl⟩⟩
          · intro hc
            exact absurd hc (by simp)
          · intro hc
            exact absurd hc hsum
          · intro hc
            exact absurd hc (by simp)
          · intro j hj hd
            injection hj with hji
            subst hji
            simp [hd] at hdi

/-- Witness for `ds_note_decline`: a one-topic log whose selector the
contract does not recognize declines into `none`. -/
theorem ds_note_decline_witness :
    ((Log.mk "0xA" [[1, 2, 3, 4]] "0x").topics.head? = some [1, 2, 3, 4])
    ∧ hexToBytes (String.drop (Log.mk "0xA" [[1, 2, 3, 4]] "0x").data 2) = some []
    ∧ alookup exContractEmpty.selectors (bytesToHex (([1, 2, 3, 4] : Bytes).take 4)) = none
    ∧ _decode_ds_note (Log.mk "0xA" [[1, 2, 3, 4]] "0x") exContractEmpty
        = Except.ok none :=
  ⟨rfl, rfl, rfl,
    (ds_note_decline (Log.mk "0xA" [[1, 2, 3, 4]] "0x") exContractEmpty
      [1, 2, 3, 4] [] rfl rfl).1 rfl⟩

/-- C6 counterexample — A log with no topics makes `log.topics[0]` raise
`IndexError` out of `_decode_ds_note`, so an exception does escape the
decoder (similarly `bytes.fromhex` raises `ValueError` on malformed data,
as it sits before the guarded region). -/
theorem ds_note_topicless_raises :
    _decode_ds_note (Log.mk "0xA" [] "0x") exContractEmpty
      = Except.error PyErr.indexError
    ∧ _decode_ds_note (Log.mk "0xA" [[1, 2, 3, 4]] "0xzz")
        (Contract.mk [(bytesToHex [1, 2, 3, 4], "notePay")]
          (fun _ => none) (fun _ => []))
      = Except.error PyErr.valueError := by
  constructor
  · rfl
  · rfl

/-- Witness for `watchPass_prunes_nonrepeating`: one repeating and one
non-repeating subscription; only the repeating one survives the pass. -/
theorem watchPass_prunes_witness :
    (watchPass 0 [EventWatchData.mk 2000 true 0 false [],
        EventWatchData.mk 2000 false 0 false []]).1
      = (([EventWatchData.mk 2000 true 0 false [],
            EventWatchData.mk 2000 false 0 false []].filter
              (fun e => e.repeats)).map (fun e => (watchStep 0 e).1)) :=
  (watchPass_prunes_nonrepeating 0
    [EventWatchData.mk 2000 true 0 false [],
     EventWatchData.mk 2000 false 0 false []]).1

end BrownieEvent
